import Mathlib

set_option maxHeartbeats 1000000
set_option maxRecDepth 4000

/-!
Shallow embedding of the reactive state runtime (`createState` / `effect` /
`createEffect` and the batching scheduler).  JS objects are modelled by
numeric identities into an explicit heap; the module-level mutable globals
(`activeEffect`, `targetMap`, `effectDepsMap`, `proxyCache`, `proxyParentMap`,
`pendingEffects`, `isFlushPending`, `activeComponentEffects`) become fields of
one state record.  Effect bodies (the `fn` closures handed to `effect` /
`createEffect`) are modelled by a small syntax of reads, writes, conditionals
and nested effect creation, interpreted against the state.
-/

/-- Property keys (JS string keys). -/
abbrev Key := String

/-- Runtime values: primitives are modelled by integers (equality of `Val`
    models JS `===` identity / primitive equality), object references by the
    numeric identity of the referenced object, plus `undefined`. -/
inductive Val where
  | int : Int → Val
  | obj : Nat → Val
  | undef : Val
deriving DecidableEq, Repr

/-- Underlying (unwrapped) object data: a plain record of key/value fields,
    or an array of values. -/
inductive ObjData where
  | record : List (Key × Val) → ObjData
  | array : List Val → ObjData
deriving DecidableEq, Repr

/-- Syntax of effect bodies (the zero-argument closures given to `effect` and
    `createEffect`): sequenced wrapper reads and writes, a conditional that
    reads a wrapper property and branches on its truthiness, and creation of
    a nested free-standing effect. -/
inductive Body where
  | nop : Body
  | seq : Body → Body → Body
  | read : Nat → Key → Body
  | write : Nat → Key → Val → Body
  | ite : Nat → Key → Body → Body → Body
  | mkEffect : Body → Body
deriving DecidableEq, Repr

/-- A subscriber registered in the graph is either the `execute` closure of a
    free-standing `effect` (which clears its edges, re-tracks and runs) or the
    `effectRunner` closure of a scoped `createEffect` (which just re-runs the
    body, with no edge cleanup and no tracking). -/
inductive Runner where
  | free : Body → Runner
  | scoped : Body → Runner
deriving DecidableEq, Repr

/-- The whole mutable module state of the runtime, plus the heap of target
    objects and an instrumentation log (`runLog`) recording, in start order,
    the identity of every subscriber evaluation the runtime performs. -/
structure RState where
  /-- `let activeEffect: (() => void) | null = null` — the single active-subscriber slot. -/
  activeEffect : Option Nat
  /-- `targetMap`: forward index, flattened to (target, key) → ordered set of subscribers. -/
  targetMap : List ((Nat × Key) × List Nat)
  /-- `effectDepsMap`: reverse index, subscriber → list of (target, key) it recorded.
      JS stores fresh `{target, key}` objects in a `Set`, so duplicates are possible:
      a plain list models it. -/
  effectDeps : List (Nat × List (Nat × Key))
  /-- `proxyCache`: raw target id → its unique proxy id. -/
  proxyCache : List (Nat × Nat)
  /-- The proxy's internal target slot: proxy id → raw target id. -/
  proxyTargetOf : List (Nat × Nat)
  /-- `proxyParentMap`: proxy id → (parent raw target, key) linkage. -/
  proxyParentMap : List (Nat × (Nat × Key))
  /-- `pendingEffects`: the pending batch, an insertion-ordered set of subscriber ids. -/
  pendingEffects : List Nat
  /-- `isFlushPending`: whether a microtask flush is already scheduled. -/
  isFlushPending : Bool
  /-- `activeComponentEffects`: the open scoped-effect registration context, if any. -/
  activeComponentEffects : Option (List Body)
  /-- Heap of raw target objects. -/
  objs : List (Nat × ObjData)
  /-- Behaviour of each allocated subscriber closure. -/
  bodies : List (Nat × Runner)
  /-- Instrumentation: subscriber evaluations, in start order. -/
  runLog : List Nat
  /-- Allocator for fresh object / proxy / subscriber identities. -/
  nextId : Nat
deriving DecidableEq, Repr

/-- The initial runtime state: empty maps, no active subscriber, no pending
    flush, no open registration context. -/
def initState : RState :=
  ⟨none, [], [], [], [], [], [], false, none, [], [], [], 0⟩

/-- Association-list lookup (models `Map.get` / `WeakMap.get`). -/
def alookup {α β : Type} [DecidableEq α] : List (α × β) → α → Option β
  | [], _ => none
  | e :: rest, x => if x = e.1 then some e.2 else alookup rest x

/-- Association-list update-or-insert (models `Map.set` / `WeakMap.set`). -/
def aset {α β : Type} [DecidableEq α] : List (α × β) → α → β → List (α × β)
  | [], x, y => [(x, y)]
  | e :: rest, x, y => if x = e.1 then (x, y) :: rest else e :: aset rest x y

/-- Association-list key removal (models `Map.delete` / `WeakMap.delete`). -/
def aerase {α β : Type} [DecidableEq α] : List (α × β) → α → List (α × β)
  | [], _ => []
  | e :: rest, x => if x = e.1 then aerase rest x else e :: aerase rest x

/-- Forward-index lookup: the subscriber set of (target, key), empty when the
    depsMap or the set is missing. -/
def lookupF (m : List ((Nat × Key) × List Nat)) (t : Nat) (k : Key) : List Nat :=
  (alookup m (t, k)).getD []

/-- Reverse-index lookup: the dependency list of a subscriber. -/
def lookupR (s : RState) (e : Nat) : List (Nat × Key) :=
  (alookup s.effectDeps e).getD []

/-- `Set.add`: append-if-absent, preserving insertion order. -/
def addSet (l : List Nat) (e : Nat) : List Nat := if e ∈ l then l else l ++ [e]

/-- Insert subscriber `e` into the forward set of (t, k) (`deps.add(activeEffect)`,
    creating depsMap and set lazily). -/
def addEdgeF (m : List ((Nat × Key) × List Nat)) (t : Nat) (k : Key) (e : Nat) :
    List ((Nat × Key) × List Nat) :=
  aset m (t, k) (addSet (lookupF m t k) e)

/-- `track(target, key)`: a no-op without an active subscriber; otherwise adds
    the edge to the forward index and appends a fresh `{target, key}` record to
    the subscriber's reverse-index set. -/
def track (t : Nat) (k : Key) (s : RState) : RState :=
  match s.activeEffect with
  | none => s
  | some e =>
    { s with targetMap := addEdgeF s.targetMap t k e,
             effectDeps := aset s.effectDeps e (lookupR s e ++ [(t, k)]) }

/-- `queueEffect(effect)`: add to the pending batch set; ensure one flush is
    scheduled (the `queueMicrotask` call is modelled by the flag alone). -/
def queueEffect (e : Nat) (s : RState) : RState :=
  { s with pendingEffects := addSet s.pendingEffects e, isFlushPending := true }

/-- Queue a list of subscribers in order (`deps.forEach(queueEffect)`). -/
def queueAll (l : List Nat) (s : RState) : RState :=
  l.foldl (fun σ e => queueEffect e σ) s

/-- `trigger(target, key)`: hand every subscriber in the forward set of
    (target, key) to the scheduler; never runs anything synchronously. -/
def trigger (t : Nat) (k : Key) (s : RState) : RState :=
  queueAll (lookupF s.targetMap t k) s

/-- Remove subscriber `e` from the forward set of (t, k) (`targetDeps.delete(execute)`;
    a JS `Set` holds no duplicates, so deletion removes every occurrence). -/
def removeEdgeF (m : List ((Nat × Key) × List Nat)) (t : Nat) (k : Key) (e : Nat) :
    List ((Nat × Key) × List Nat) :=
  match alookup m (t, k) with
  | none => m
  | some cur => aset m (t, k) (cur.filter (fun x => x ≠ e))

/-- The `cleanup` closure of `effect` (the spec's `clearEdges`): for each entry
    of the subscriber's reverse-index set, remove the subscriber from that
    forward set, then clear the reverse-index set. -/
def cleanup (e : Nat) (s : RState) : RState :=
  match alookup s.effectDeps e with
  | none => s
  | some deps =>
    { s with targetMap := deps.foldl (fun m tk => removeEdgeF m tk.1 tk.2 e) s.targetMap,
             effectDeps := aset s.effectDeps e [] }

/-- Heap lookup of a raw object. -/
def lookupObj (s : RState) (t : Nat) : Option ObjData := alookup s.objs t

/-- `Array.isArray(obj)` on a heap object. -/
def isArrayObj (s : RState) (t : Nat) : Bool :=
  match lookupObj s t with
  | some (ObjData.array _) => true
  | _ => false

def lengthKey : Key := "length"

def pushKey : Key := "push"

/-- Names of the instrumented mutating array methods. -/
def mutMethods : List Key :=
  ["push", "pop", "shift", "unshift", "splice", "sort", "reverse"]

/-- Decimal digit character (used to print and parse array index keys without
    well-founded recursion, so witness states reduce in the kernel). -/
def digitChar (d : Nat) : Char := Char.ofNat (48 + d)

/-- Decimal digits of `n`, most significant first; `fuel` bounds the recursion
    structurally (any `fuel > n` is enough). -/
def natDigitsAux : Nat → Nat → List Char
  | 0, _ => []
  | fuel + 1, n => if n = 0 then [] else natDigitsAux fuel (n / 10) ++ [digitChar (n % 10)]

/-- Decimal string for an array index key (what JS makes of a numeric key). -/
def natKey (n : Nat) : Key :=
  if n = 0 then "0" else String.mk (natDigitsAux (n + 1) n)

/-- Numeric value of one digit character, if it is one. -/
def digitVal (c : Char) : Option Nat :=
  if 48 ≤ c.toNat ∧ c.toNat ≤ 57 then some (c.toNat - 48) else none

/-- Accumulating decimal parse of a character list; `none` on empty input or a
    non-digit. -/
def parseDigits : List Char → Option Nat → Option Nat
  | [], acc => acc
  | c :: cs, acc =>
    match digitVal c with
    | some d => parseDigits cs (some ((acc.getD 0) * 10 + d))
    | none => none

/-- Array index denoted by a key, if the key is all digits. -/
def keyIdx (k : Key) : Option Nat := parseDigits k.data none

/-- `Reflect.get(target, key)` on the raw heap object: record field lookup, or
    array `length` / index access (absent fields read as `undefined`). -/
def rawGet (s : RState) (t : Nat) (k : Key) : Val :=
  match lookupObj s t with
  | none => Val.undef
  | some (ObjData.record fields) => (alookup fields k).getD Val.undef
  | some (ObjData.array l) =>
    if k = lengthKey then Val.int l.length
    else
      match keyIdx k with
      | some i => l.getD i Val.undef
      | none => Val.undef

/-- Array element write at index `i`: in-range assignment, or extension with
    holes (`undefined`) up to `i` as JS arrays do. -/
def setElem (l : List Val) (i : Nat) (v : Val) : List Val :=
  if i < l.length then l.set i v
  else l ++ List.replicate (i - l.length) Val.undef ++ [v]

/-- Assigning `length` truncates or extends with holes. -/
def resizeArr (l : List Val) (n : Nat) : List Val :=
  if n ≤ l.length then l.take n
  else l ++ List.replicate (n - l.length) Val.undef

/-- Apply a mutation to the heap object at `t` (no-op on a dangling id). -/
def updObj (objs : List (Nat × ObjData)) (t : Nat) (f : ObjData → ObjData) :
    List (Nat × ObjData) :=
  match alookup objs t with
  | none => objs
  | some d => aset objs t (f d)

/-- `Reflect.set(target, key, value)` on the raw heap object. -/
def rawSet (s : RState) (t : Nat) (k : Key) (v : Val) : RState :=
  { s with objs := updObj s.objs t (fun d =>
      match d with
      | ObjData.record fields => ObjData.record (aset fields k v)
      | ObjData.array l =>
        if k = lengthKey then
          match v with
          | Val.int n => ObjData.array (resizeArr l n.toNat)
          | _ => ObjData.array l
        else
          match keyIdx k with
          | some i => ObjData.array (setElem l i v)
          | none => ObjData.array l) }

/-- `Reflect.deleteProperty(target, key)`: record field removal; on arrays an
    index deletion leaves a hole and `length` is not deletable. -/
def rawDelete (s : RState) (t : Nat) (k : Key) : RState :=
  { s with objs := updObj s.objs t (fun d =>
      match d with
      | ObjData.record fields => ObjData.record (aerase fields k)
      | ObjData.array l =>
        if k = lengthKey then ObjData.array l
        else
          match keyIdx k with
          | some i => ObjData.array (if i < l.length then l.set i Val.undef else l)
          | none => ObjData.array l) }

/-- `createState(obj, parent?, key?)`: return the cached proxy if one exists
    (before any bookkeeping); otherwise create a fresh proxy, cache it, and —
    only on this creation path — record the parent linkage when supplied. -/
def createState (o : Nat) (par : Option (Nat × Key)) (s : RState) : Nat × RState :=
  match alookup s.proxyCache o with
  | some p => (p, s)
  | none =>
    let p := s.nextId
    let s1 := { s with nextId := p + 1,
                       proxyCache := (o, p) :: s.proxyCache,
                       proxyTargetOf := (p, o) :: s.proxyTargetOf }
    match par with
    | some pk => (p, { s1 with proxyParentMap := (p, pk) :: s1.proxyParentMap })
    | none => (p, s1)

/-- The proxy `get` trap: on an array's instrumented-method name, return the
    instrumented function (before tracking); otherwise fetch the raw value,
    track (target, key), and wrap a non-null object value via `createState`
    with this target and key as parent linkage. -/
def getProp (p : Nat) (k : Key) (s : RState) : Val × RState :=
  match alookup s.proxyTargetOf p with
  | none => (Val.undef, s)
  | some t =>
    if isArrayObj s t && mutMethods.contains k then
      (Val.undef, s)
    else
      let v := rawGet s t k
      let s1 := track t k s
      match v with
      | Val.obj o =>
        let c := createState o (some (t, k)) s1
        (Val.obj c.1, c.2)
      | _ => (v, s1)

/-- The proxy `set` trap: read the old raw value, perform the raw assignment,
    and trigger (target, key) only when the value actually changed. -/
def setProp (p : Nat) (k : Key) (v : Val) (s : RState) : RState :=
  match alookup s.proxyTargetOf p with
  | none => s
  | some t =>
    let old := rawGet s t k
    let s1 := rawSet s t k v
    if old ≠ v then trigger t k s1 else s1

/-- Property deletion through the wrapper.  The proxy handler defines only
    `get` and `set` traps, so deletion is not intercepted: the default
    behaviour deletes on the raw target and nothing else happens. -/
def deleteProp (p : Nat) (k : Key) (s : RState) : RState :=
  match alookup s.proxyTargetOf p with
  | none => s
  | some t => rawDelete s t k

/-- JS truthiness of a modelled value. -/
def truthy : Val → Bool
  | Val.int n => n ≠ 0
  | Val.obj _ => true
  | Val.undef => false

/-- Assignment to the module-level `activeEffect` slot. -/
def setSlot (a : Option Nat) (s : RState) : RState := { s with activeEffect := a }

/-- Instrumentation only: record that subscriber `e` starts an evaluation. -/
def logRun (e : Nat) (s : RState) : RState := { s with runLog := s.runLog ++ [e] }

/-- Prologue of the `execute` closure of `effect`: log the evaluation, clear
    the subscriber's old edges, and point the active-subscriber slot at it. -/
def startRun (e : Nat) (s : RState) : RState :=
  setSlot (some e) (cleanup e (logRun e s))

/-- Interpret an effect body against the state.  `mkEffect b` inlines the
    creation path of `effect(fn)`: allocate the `execute` closure, register
    its behaviour, run it once (log, clear its empty edge set, evaluate with
    the slot pointing at it), and finally reset the slot to `null` — the
    source's `finally` clause restores `null`, not the previous slot value. -/
def runBody : Body → RState → RState
  | Body.nop, s => s
  | Body.seq b1 b2, s => runBody b2 (runBody b1 s)
  | Body.read p k, s => (getProp p k s).2
  | Body.write p k v, s => setProp p k v s
  | Body.ite p k b1 b2, s =>
    let r := getProp p k s
    if truthy r.1 then runBody b1 r.2 else runBody b2 r.2
  | Body.mkEffect b, s =>
    let e := s.nextId
    let s1 := { s with nextId := e + 1, bodies := aset s.bodies e (Runner.free b) }
    setSlot none (runBody b (startRun e s1))

/-- Run one queued subscriber.  A free-standing `execute` clears its old edges,
    re-evaluates with itself as the active subscriber, then resets the slot to
    `null`; a scoped `effectRunner` just re-runs its body (no cleanup, no slot
    change). -/
def executeEffect (e : Nat) (s : RState) : RState :=
  match alookup s.bodies e with
  | some (Runner.free b) => setSlot none (runBody b (startRun e s))
  | some (Runner.scoped b) => runBody b (logRun e s)
  | none => logRun e s

/-- `effect(fn)`: allocate the `execute` closure and evaluate it once
    immediately; returns the subscriber id. -/
def effect (b : Body) (s : RState) : Nat × RState :=
  let e := s.nextId
  let s1 := { s with nextId := e + 1, bodies := aset s.bodies e (Runner.free b) }
  (e, executeEffect e s1)

/-- The disposer returned by `effect`: clear the edges and drop the
    reverse-index entry entirely. -/
def disposeEffect (e : Nat) (s : RState) : RState :=
  let s1 := cleanup e s
  { s1 with effectDeps := aerase s1.effectDeps e }

/-- `flushEffects`: reset the flush flag, swap the pending set out (so
    re-entrant triggers start a new batch), and run each swapped subscriber in
    its enqueue order. -/
def flushEffects (s : RState) : RState :=
  let effs := s.pendingEffects
  let s1 := { s with isFlushPending := false, pendingEffects := [] }
  effs.foldl (fun σ e => executeEffect e σ) s1

def scopedErr : String :=
  "createEffect can only be called inside a reactive component setup"

/-- `createEffect(fn)`: outside an open registration context it throws
    immediately, before touching any state; inside, it only pushes the
    registration (the body is not run until mount). -/
def createEffect (b : Body) (s : RState) : Except String RState :=
  match s.activeComponentEffects with
  | none => Except.error scopedErr
  | some l => Except.ok { s with activeComponentEffects := some (l ++ [b]) }

/-- Mounting a registered scoped effect (the `reactiveEffectFn` body): allocate
    the `effectRunner` subscriber, save the active-subscriber slot, run the
    body once with the slot pointing at the runner, restore the saved slot,
    then subscribe the runner to every captured dependency. -/
def mountScopedEffect (b : Body) (s : RState) : Nat × RState :=
  let r := s.nextId
  let s1 := { s with nextId := r + 1, bodies := aset s.bodies r (Runner.scoped b) }
  let prev := s1.activeEffect
  let s3 := runBody b (setSlot (some r) s1)
  let s4 := setSlot prev s3
  let deps := lookupR s4 r
  (r, { s4 with targetMap := deps.foldl (fun m tk => addEdgeF m tk.1 tk.2 r) s4.targetMap })

/-- Length of the array object at `t` (0 when not an array). -/
def arrayLen (s : RState) (t : Nat) : Nat :=
  match lookupObj s t with
  | some (ObjData.array l) => l.length
  | _ => 0

/-- The shared shape of every instrumented mutating array method: save the
    active-subscriber slot and pause tracking, run the native operation,
    restore the slot, then trigger (this, method) and (this, "length") — where
    `this` is the proxy the method was invoked on — and finally trigger the
    parent linkage of that proxy when one exists. -/
def arrayMethodRun (p : Nat) (method : Key) (nativeOp : RState → RState) (s : RState) :
    RState :=
  let prev := s.activeEffect
  let s2 := nativeOp (setSlot none s)
  let s3 := setSlot prev s2
  let s4 := trigger p method s3
  let s5 := trigger p lengthKey s4
  match alookup s5.proxyParentMap p with
  | some pk => trigger pk.1 pk.2 s5
  | none => s5

/-- `Array.prototype.push.apply(this, [v])` with `this` the proxy: read the
    current length through the `get` trap, store the element at that index
    through the `set` trap (which auto-extends the raw array), then assign
    `length` through the `set` trap (a no-op equal write by then). -/
def pushNative (p : Nat) (v : Val) (s : RState) : RState :=
  match alookup s.proxyTargetOf p with
  | none => s
  | some t =>
    let r := getProp p lengthKey s
    let len := arrayLen r.2 t
    let s1 := setProp p (natKey len) v r.2
    setProp p lengthKey (Val.int (len + 1)) s1

/-- The instrumented `push` invoked on proxy `p`. -/
def arrayPush (p : Nat) (v : Val) (s : RState) : RState :=
  arrayMethodRun p pushKey (pushNative p v) s

/-- Model scaffolding for JS object creation: place a fresh object on the heap. -/
def allocObj (d : ObjData) (s : RState) : Nat × RState :=
  let o := s.nextId
  (o, { s with nextId := o + 1, objs := (o, d) :: s.objs })

/-- The tail of a run log relative to an earlier state: the subscriber
    evaluations performed since. -/
def runDelta (s s2 : RState) : List Nat := s2.runLog.drop s.runLog.length

/-- Every forward-index edge is mirrored in the reverse index (the graph's
    two-index consistency invariant). -/
def fwdInRev (s : RState) : Prop :=
  ∀ pr ∈ s.targetMap, ∀ e ∈ pr.2, (pr.1.1, pr.1.2) ∈ lookupR s e

/-! Association-list lemmas. -/

theorem alookup_aset_self {α β : Type} [DecidableEq α] (l : List (α × β)) (x : α) (y : β) :
    alookup (aset l x y) x = some y := by
  induction l with
  | nil => simp [aset, alookup]
  | cons e rest ih =>
    by_cases h : x = e.1 <;> simp [aset, alookup, h, ih]

theorem alookup_aset_ne {α β : Type} [DecidableEq α] (l : List (α × β)) {x x' : α} (y : β)
    (h : x ≠ x') : alookup (aset l x' y) x = alookup l x := by
  induction l with
  | nil => simp [aset, alookup, h]
  | cons e rest ih =>
    by_cases h2 : x' = e.1
    · subst h2
      simp [aset, alookup, h]
    · simp [aset, alookup, h2, ih]

theorem alookup_mem {α β : Type} [DecidableEq α] {l : List (α × β)} {x : α} {y : β}
    (h : alookup l x = some y) : (x, y) ∈ l := by
  induction l with
  | nil => simp [alookup] at h
  | cons e rest ih =>
    unfold alookup at h
    split at h
    · rename_i h2
      cases e
      simp_all
    · exact List.mem_cons_of_mem _ (ih h)

theorem alookup_aerase_self {α β : Type} [DecidableEq α] (l : List (α × β)) (x : α) :
    alookup (aerase l x) x = none := by
  induction l with
  | nil => simp [aerase, alookup]
  | cons e rest ih =>
    by_cases h : x = e.1
    · simp only [aerase, if_pos h]
      exact ih
    · simp [aerase, alookup, h, ih]

/-! Forward-index lemmas. -/

theorem lookupF_aset_self (m : List ((Nat × Key) × List Nat)) (t : Nat) (k : Key)
    (v : List Nat) : lookupF (aset m (t, k) v) t k = v := by
  simp [lookupF, alookup_aset_self]

theorem lookupF_aset_ne (m : List ((Nat × Key) × List Nat)) {t t' : Nat} {k k' : Key}
    (v : List Nat) (h : (t, k) ≠ (t', k')) :
    lookupF (aset m (t', k') v) t k = lookupF m t k := by
  simp [lookupF, alookup_aset_ne m v h]

theorem mem_lookupF_mem (m : List ((Nat × Key) × List Nat)) {t : Nat} {k : Key} {e : Nat}
    (h : e ∈ lookupF m t k) : ∃ pr ∈ m, pr.1 = (t, k) ∧ e ∈ pr.2 := by
  unfold lookupF at h
  cases h2 : alookup m (t, k) with
  | none => rw [h2] at h; simp at h
  | some cur =>
    rw [h2] at h
    exact ⟨((t, k), cur), alookup_mem h2, rfl, by simpa using h⟩

/-! Set-add lemmas. -/

theorem mem_addSet {l : List Nat} {e x : Nat} : x ∈ addSet l e ↔ x ∈ l ∨ x = e := by
  by_cases he : e ∈ l
  · simp only [addSet, if_pos he]
    constructor
    · exact Or.inl
    · rintro (h | rfl)
      · exact h
      · exact he
  · simp [addSet, if_neg he]

theorem addSet_nodup {l : List Nat} (e : Nat) (h : l.Nodup) : (addSet l e).Nodup := by
  by_cases he : e ∈ l
  · simpa [addSet, if_pos he] using h
  · simp [addSet, if_neg he, List.nodup_append, h, he]

/-! Scheduler lemmas: `queueAll` only touches the pending set and the flush flag. -/

theorem queueAll_fields (l : List Nat) (s : RState) :
    (queueAll l s).runLog = s.runLog ∧ (queueAll l s).targetMap = s.targetMap ∧
    (queueAll l s).effectDeps = s.effectDeps ∧ (queueAll l s).nextId = s.nextId ∧
    (queueAll l s).activeEffect = s.activeEffect ∧ (queueAll l s).objs = s.objs ∧
    (queueAll l s).proxyTargetOf = s.proxyTargetOf ∧
    (queueAll l s).proxyParentMap = s.proxyParentMap ∧
    (queueAll l s).proxyCache = s.proxyCache ∧ (queueAll l s).bodies = s.bodies ∧
    (queueAll l s).activeComponentEffects = s.activeComponentEffects := by
  induction l generalizing s with
  | nil => exact ⟨rfl, rfl, rfl, rfl, rfl, rfl, rfl, rfl, rfl, rfl, rfl⟩
  | cons a l ih => exact ih (queueEffect a s)

theorem mem_pending_queueAll {l : List Nat} {s : RState} {x : Nat} :
    x ∈ (queueAll l s).pendingEffects ↔ x ∈ s.pendingEffects ∨ x ∈ l := by
  induction l generalizing s with
  | nil => simp [queueAll]
  | cons a l ih =>
    show x ∈ (queueAll l (queueEffect a s)).pendingEffects ↔ _
    rw [ih]
    show x ∈ addSet s.pendingEffects a ∨ x ∈ l ↔ _
    rw [mem_addSet]
    constructor
    · rintro ((h | rfl) | h)
      · exact Or.inl h
      · exact Or.inr (List.mem_cons_self _ _)
      · exact Or.inr (List.mem_cons_of_mem _ h)
    · rintro (h | h)
      · exact Or.inl (Or.inl h)
      · rcases List.mem_cons.mp h with rfl | h
        · exact Or.inl (Or.inr rfl)
        · exact Or.inr h

theorem queueAll_pending_nodup {l : List Nat} {s : RState} (h : s.pendingEffects.Nodup) :
    (queueAll l s).pendingEffects.Nodup := by
  induction l generalizing s with
  | nil => exact h
  | cons a l ih => exact ih (addSet_nodup a h)

theorem queueAll_flag {l : List Nat} {s : RState} (h : l ≠ []) :
    (queueAll l s).isFlushPending = true := by
  induction l generalizing s with
  | nil => exact absurd rfl h
  | cons a l ih =>
    show (queueAll l (queueEffect a s)).isFlushPending = true
    cases l with
    | nil => rfl
    | cons b l2 => exact ih (by simp)

/-! Field-preservation lemmas for the state operations. -/

theorem track_fields (t : Nat) (k : Key) (s : RState) :
    (track t k s).runLog = s.runLog ∧ (track t k s).nextId = s.nextId ∧
    (track t k s).pendingEffects = s.pendingEffects ∧
    (track t k s).isFlushPending = s.isFlushPending ∧
    (track t k s).objs = s.objs ∧ (track t k s).bodies = s.bodies ∧
    (track t k s).activeEffect = s.activeEffect ∧
    (track t k s).proxyCache = s.proxyCache ∧
    (track t k s).proxyTargetOf = s.proxyTargetOf ∧
    (track t k s).proxyParentMap = s.proxyParentMap ∧
    (track t k s).activeComponentEffects = s.activeComponentEffects := by
  unfold track
  split <;> simp

theorem track_none {t : Nat} {k : Key} {s : RState} (h : s.activeEffect = none) :
    track t k s = s := by
  unfold track
  rw [h]

theorem cleanup_fields (e : Nat) (s : RState) :
    (cleanup e s).runLog = s.runLog ∧ (cleanup e s).nextId = s.nextId ∧
    (cleanup e s).pendingEffects = s.pendingEffects ∧
    (cleanup e s).isFlushPending = s.isFlushPending ∧
    (cleanup e s).objs = s.objs ∧ (cleanup e s).bodies = s.bodies ∧
    (cleanup e s).activeEffect = s.activeEffect ∧
    (cleanup e s).proxyCache = s.proxyCache ∧
    (cleanup e s).proxyTargetOf = s.proxyTargetOf ∧
    (cleanup e s).proxyParentMap = s.proxyParentMap ∧
    (cleanup e s).activeComponentEffects = s.activeComponentEffects := by
  unfold cleanup
  split <;> simp

theorem createState_fields (o : Nat) (par : Option (Nat × Key)) (s : RState) :
    (createState o par s).2.runLog = s.runLog ∧
    (createState o par s).2.pendingEffects = s.pendingEffects ∧
    (createState o par s).2.isFlushPending = s.isFlushPending ∧
    (createState o par s).2.objs = s.objs ∧
    (createState o par s).2.bodies = s.bodies ∧
    (createState o par s).2.activeEffect = s.activeEffect ∧
    (createState o par s).2.targetMap = s.targetMap ∧
    (createState o par s).2.effectDeps = s.effectDeps ∧
    (createState o par s).2.activeComponentEffects = s.activeComponentEffects := by
  unfold createState
  split
  · simp
  · split <;> simp

theorem createState_nextId_mono (o : Nat) (par : Option (Nat × Key)) (s : RState) :
    s.nextId ≤ (createState o par s).2.nextId := by
  unfold createState
  split
  · exact Nat.le_refl _
  · split <;> exact Nat.le_succ _

theorem createState_cache_self (o : Nat) (par : Option (Nat × Key)) (s : RState) :
    alookup (createState o par s).2.proxyCache o = some (createState o par s).1 := by
  unfold createState
  split
  · assumption
  · split <;> simp [alookup]

theorem createState_proxyTargetOf_pres (o : Nat) (par : Option (Nat × Key)) (s : RState)
    {q : Nat} (h : q ≠ s.nextId) :
    alookup (createState o par s).2.proxyTargetOf q = alookup s.proxyTargetOf q := by
  unfold createState
  split
  · rfl
  · split <;> simp [alookup, h]

theorem createState_parent_pres (o : Nat) (par : Option (Nat × Key)) (s : RState)
    {q : Nat} (h : q ≠ s.nextId) :
    alookup (createState o par s).2.proxyParentMap q = alookup s.proxyParentMap q := by
  unfold createState
  split
  · rfl
  · split <;> simp [alookup, h]

theorem getProp_fields (p : Nat) (k : Key) (s : RState) :
    (getProp p k s).2.runLog = s.runLog ∧
    (getProp p k s).2.pendingEffects = s.pendingEffects ∧
    (getProp p k s).2.isFlushPending = s.isFlushPending ∧
    (getProp p k s).2.objs = s.objs ∧
    (getProp p k s).2.bodies = s.bodies ∧
    (getProp p k s).2.activeEffect = s.activeEffect ∧
    (getProp p k s).2.activeComponentEffects = s.activeComponentEffects := by
  unfold getProp
  split
  · simp
  · rename_i t heq
    split
    · simp
    · rcases hv : rawGet s t k with n | o | _ <;>
        simp [hv, createState_fields, track_fields]

theorem track_nextId (t : Nat) (k : Key) (s : RState) : (track t k s).nextId = s.nextId := by
  unfold track
  split <;> rfl

theorem track_parentMap (t : Nat) (k : Key) (s : RState) :
    (track t k s).proxyParentMap = s.proxyParentMap := by
  unfold track
  split <;> rfl

theorem track_proxyTargetOf (t : Nat) (k : Key) (s : RState) :
    (track t k s).proxyTargetOf = s.proxyTargetOf := by
  unfold track
  split <;> rfl

theorem track_pending (t : Nat) (k : Key) (s : RState) :
    (track t k s).pendingEffects = s.pendingEffects := by
  unfold track
  split <;> rfl

theorem getProp_nextId_mono (p : Nat) (k : Key) (s : RState) :
    s.nextId ≤ (getProp p k s).2.nextId := by
  unfold getProp
  split
  · exact Nat.le_refl _
  · rename_i t heq
    split
    · exact Nat.le_refl _
    · rcases hv : rawGet s t k with n | o | _ <;> simp [hv, track_nextId]
      have h2 := createState_nextId_mono o (some (t, k)) (track t k s)
      rwa [track_nextId] at h2

theorem getProp_targetMap_none (p : Nat) (k : Key) {s : RState}
    (h : s.activeEffect = none) : (getProp p k s).2.targetMap = s.targetMap := by
  unfold getProp
  split
  · rfl
  · rename_i t heq
    split
    · rfl
    · rcases hv : rawGet s t k with n | o | _ <;>
        simp [hv, track_none h, createState_fields]

theorem getProp_parent_pres (p : Nat) (k : Key) {s : RState} {q : Nat}
    (h : q < s.nextId) :
    alookup (getProp p k s).2.proxyParentMap q = alookup s.proxyParentMap q := by
  unfold getProp
  split
  · rfl
  · rename_i t heq
    split
    · rfl
    · rcases hv : rawGet s t k with n | o | _ <;> simp [hv, track_parentMap]
      have h2 : q ≠ (track t k s).nextId := by
        rw [track_nextId]
        omega
      rw [createState_parent_pres o (some (t, k)) (track t k s) h2, track_parentMap]

/-! `setProp` lemmas. -/

theorem setProp_fields (p : Nat) (k : Key) (v : Val) (s : RState) :
    (setProp p k v s).runLog = s.runLog ∧ (setProp p k v s).nextId = s.nextId ∧
    (setProp p k v s).targetMap = s.targetMap ∧
    (setProp p k v s).effectDeps = s.effectDeps ∧
    (setProp p k v s).activeEffect = s.activeEffect ∧
    (setProp p k v s).bodies = s.bodies ∧
    (setProp p k v s).proxyCache = s.proxyCache ∧
    (setProp p k v s).proxyTargetOf = s.proxyTargetOf ∧
    (setProp p k v s).proxyParentMap = s.proxyParentMap ∧
    (setProp p k v s).activeComponentEffects = s.activeComponentEffects := by
  unfold setProp
  split
  · simp
  · rename_i t heq
    by_cases hv : rawGet s t k ≠ v <;> simp [hv, trigger, queueAll_fields, rawSet]

theorem setProp_of_ne {p t : Nat} {k : Key} {v : Val} {s : RState}
    (hpt : alookup s.proxyTargetOf p = some t) (hne : rawGet s t k ≠ v) :
    setProp p k v s = trigger t k (rawSet s t k v) := by
  unfold setProp
  rw [hpt]
  simp [hne]

theorem setProp_of_eq {p t : Nat} {k : Key} {v : Val} {s : RState}
    (hpt : alookup s.proxyTargetOf p = some t) (heq : rawGet s t k = v) :
    setProp p k v s = rawSet s t k v := by
  unfold setProp
  rw [hpt]
  simp [heq]

theorem mem_pending_trigger {t : Nat} {k : Key} {s : RState} {x : Nat} :
    x ∈ (trigger t k s).pendingEffects ↔
      x ∈ s.pendingEffects ∨ x ∈ lookupF s.targetMap t k :=
  mem_pending_queueAll

theorem trigger_pending_nodup {t : Nat} {k : Key} {s : RState}
    (h : s.pendingEffects.Nodup) : (trigger t k s).pendingEffects.Nodup :=
  queueAll_pending_nodup h

theorem mem_pending_setProp {p : Nat} {k : Key} {v : Val} {s : RState} {x : Nat}
    (h : x ∈ (setProp p k v s).pendingEffects) :
    x ∈ s.pendingEffects ∨
      ∃ t, alookup s.proxyTargetOf p = some t ∧ x ∈ lookupF s.targetMap t k := by
  rcases heq : alookup s.proxyTargetOf p with _ | t
  · unfold setProp at h
    rw [heq] at h
    exact Or.inl h
  · by_cases hv : rawGet s t k ≠ v
    · rw [setProp_of_ne heq hv] at h
      rcases mem_pending_trigger.mp h with h2 | h2
      · exact Or.inl h2
      · exact Or.inr ⟨t, rfl, h2⟩
    · rw [setProp_of_eq heq (not_not.mp hv)] at h
      exact Or.inl h

theorem setProp_pending_nodup {p : Nat} {k : Key} {v : Val} {s : RState}
    (h : s.pendingEffects.Nodup) : (setProp p k v s).pendingEffects.Nodup := by
  rcases heq : alookup s.proxyTargetOf p with _ | t
  · unfold setProp
    rw [heq]
    exact h
  · by_cases hv : rawGet s t k ≠ v
    · rw [setProp_of_ne heq hv]
      exact trigger_pending_nodup h
    · rw [setProp_of_eq heq (not_not.mp hv)]
      exact h

/-! Edge-removal lemmas (for the cleanup invariant). -/

theorem mem_lookupF_removeEdgeF (m : List ((Nat × Key) × List Nat)) (t' : Nat) (k' : Key)
    (e : Nat) {x t : Nat} {k : Key}
    (h : x ∈ lookupF (removeEdgeF m t' k' e) t k) : x ∈ lookupF m t k := by
  unfold removeEdgeF at h
  split at h
  · exact h
  · rename_i cur hcur
    by_cases hk : ((t, k) : Nat × Key) = (t', k')
    · injection hk with h1 h2
      subst h1
      subst h2
      rw [lookupF_aset_self] at h
      unfold lookupF
      rw [hcur]
      exact List.mem_of_mem_filter h
    · rw [lookupF_aset_ne _ _ hk] at h
      exact h

theorem not_mem_removeEdgeF_self (m : List ((Nat × Key) × List Nat)) (t : Nat) (k : Key)
    (e : Nat) : e ∉ lookupF (removeEdgeF m t k e) t k := by
  unfold removeEdgeF
  split
  · rename_i hnone
    unfold lookupF
    rw [hnone]
    simp
  · rename_i cur hcur
    rw [lookupF_aset_self]
    simp [List.mem_filter]

theorem not_mem_fold_removeEdgeF (deps : List (Nat × Key)) (e : Nat) :
    ∀ (m : List ((Nat × Key) × List Nat)) (t : Nat) (k : Key),
      ((t, k) ∈ deps ∨ e ∉ lookupF m t k) →
      e ∉ lookupF (deps.foldl (fun m2 tk => removeEdgeF m2 tk.1 tk.2 e) m) t k := by
  induction deps with
  | nil =>
    intro m t k h
    rcases h with h | h
    · simp at h
    · exact h
  | cons d rest ih =>
    intro m t k h
    show e ∉ lookupF (rest.foldl _ (removeEdgeF m d.1 d.2 e)) t k
    rcases h with h | h
    · rcases List.mem_cons.mp h with h2 | h2
      · exact ih _ t k (Or.inr (h2 ▸ not_mem_removeEdgeF_self m t k e))
      · exact ih _ t k (Or.inl h2)
    · exact ih _ t k (Or.inr (fun hmem => h (mem_lookupF_removeEdgeF _ _ _ _ hmem)))

theorem cleanup_clears (s : RState) (e : Nat) (hm : fwdInRev s) (t : Nat) (k : Key) :
    e ∉ lookupF (cleanup e s).targetMap t k := by
  unfold cleanup
  split
  · rename_i hnone
    intro hmem
    obtain ⟨pr, hpr, hpr1, hpre⟩ := mem_lookupF_mem _ hmem
    have h2 := hm pr hpr e hpre
    unfold lookupR at h2
    rw [hnone] at h2
    simp at h2
  · rename_i deps hdeps
    by_cases hml : e ∈ lookupF s.targetMap t k
    · obtain ⟨pr, hpr, hpr1, hpre⟩ := mem_lookupF_mem _ hml
      have h2 := hm pr hpr e hpre
      unfold lookupR at h2
      rw [hdeps] at h2
      rw [Prod.mk.eta, hpr1] at h2
      exact not_mem_fold_removeEdgeF deps e s.targetMap t k (Or.inl h2)
    · exact not_mem_fold_removeEdgeF deps e s.targetMap t k (Or.inr hml)

/-! Projection lemmas for the evaluation helpers. -/

theorem setSlot_nextId (a : Option Nat) (s : RState) : (setSlot a s).nextId = s.nextId := rfl

theorem setSlot_runLog (a : Option Nat) (s : RState) : (setSlot a s).runLog = s.runLog := rfl

theorem setSlot_pending (a : Option Nat) (s : RState) :
    (setSlot a s).pendingEffects = s.pendingEffects := rfl

theorem setSlot_activeEffect (a : Option Nat) (s : RState) : (setSlot a s).activeEffect = a := rfl

theorem cleanup_runLog (e : Nat) (s : RState) : (cleanup e s).runLog = s.runLog :=
  (cleanup_fields e s).1

theorem cleanup_nextId (e : Nat) (s : RState) : (cleanup e s).nextId = s.nextId :=
  (cleanup_fields e s).2.1

theorem cleanup_pending (e : Nat) (s : RState) :
    (cleanup e s).pendingEffects = s.pendingEffects :=
  (cleanup_fields e s).2.2.1

theorem startRun_nextId (e : Nat) (s : RState) : (startRun e s).nextId = s.nextId := by
  unfold startRun
  rw [setSlot_nextId, cleanup_nextId]
  rfl

theorem startRun_runLog (e : Nat) (s : RState) :
    (startRun e s).runLog = s.runLog ++ [e] := by
  unfold startRun
  rw [setSlot_runLog, cleanup_runLog]
  rfl

theorem startRun_pending (e : Nat) (s : RState) :
    (startRun e s).pendingEffects = s.pendingEffects := by
  unfold startRun
  rw [setSlot_pending, cleanup_pending]
  rfl

theorem setProp_pending_mono {p : Nat} {k : Key} {v : Val} {s : RState} {x : Nat}
    (h : x ∈ s.pendingEffects) : x ∈ (setProp p k v s).pendingEffects := by
  rcases heq : alookup s.proxyTargetOf p with _ | t
  · unfold setProp
    rw [heq]
    exact h
  · by_cases hv : rawGet s t k ≠ v
    · rw [setProp_of_ne heq hv]
      exact mem_pending_trigger.mpr (Or.inl h)
    · rw [setProp_of_eq heq (not_not.mp hv)]
      exact h

/-! Structural lemmas about body evaluation: identities only ever grow, and the
    run log only ever gains fresh identities. -/

theorem runBody_nextId_mono (b : Body) : ∀ s : RState, s.nextId ≤ (runBody b s).nextId := by
  induction b with
  | nop => exact fun s => Nat.le_refl _
  | seq b1 b2 ih1 ih2 => exact fun s => le_trans (ih1 s) (ih2 _)
  | read p k => intro s; simp only [runBody]; exact getProp_nextId_mono p k s
  | write p k v =>
    intro s
    simp only [runBody]
    exact le_of_eq (setProp_fields p k v s).2.1.symm
  | ite p k b1 b2 ih1 ih2 =>
    intro s
    simp only [runBody]
    split
    · exact le_trans (getProp_nextId_mono p k s) (ih1 _)
    · exact le_trans (getProp_nextId_mono p k s) (ih2 _)
  | mkEffect b ih =>
    intro s
    simp only [runBody, setSlot_nextId]
    refine le_trans ?_ (ih _)
    rw [startRun_nextId]
    exact Nat.le_succ _

theorem runBody_runLog (b : Body) :
    ∀ s : RState, ∃ l, (runBody b s).runLog = s.runLog ++ l ∧ ∀ x ∈ l, s.nextId ≤ x := by
  induction b with
  | nop => intro s; exact ⟨[], by simp [runBody], by simp⟩
  | seq b1 b2 ih1 ih2 =>
    intro s
    obtain ⟨l1, h1, h1f⟩ := ih1 s
    obtain ⟨l2, h2, h2f⟩ := ih2 (runBody b1 s)
    refine ⟨l1 ++ l2, ?_, ?_⟩
    · show (runBody b2 (runBody b1 s)).runLog = _
      rw [h2, h1, List.append_assoc]
    · intro x hx
      rcases List.mem_append.mp hx with hx | hx
      · exact h1f x hx
      · exact le_trans (runBody_nextId_mono b1 s) (h2f x hx)
  | read p k =>
    intro s
    exact ⟨[], by simp [runBody, (getProp_fields p k s).1], by simp⟩
  | write p k v =>
    intro s
    exact ⟨[], by simp [runBody, (setProp_fields p k v s).1], by simp⟩
  | ite p k b1 b2 ih1 ih2 =>
    intro s
    simp only [runBody]
    split
    · obtain ⟨l, h, hf⟩ := ih1 (getProp p k s).2
      refine ⟨l, by rw [h, (getProp_fields p k s).1], ?_⟩
      intro x hx
      exact le_trans (getProp_nextId_mono p k s) (hf x hx)
    · obtain ⟨l, h, hf⟩ := ih2 (getProp p k s).2
      refine ⟨l, by rw [h, (getProp_fields p k s).1], ?_⟩
      intro x hx
      exact le_trans (getProp_nextId_mono p k s) (hf x hx)
  | mkEffect b ih =>
    intro s
    simp only [runBody, setSlot_runLog]
    obtain ⟨l, h, hf⟩ :=
      ih (startRun s.nextId
        { s with nextId := s.nextId + 1, bodies := aset s.bodies s.nextId (Runner.free b) })
    refine ⟨s.nextId :: l, ?_, ?_⟩
    · rw [h, startRun_runLog]
      simp
    · intro x hx
      rcases List.mem_cons.mp hx with rfl | hx
      · exact Nat.le_refl _
      · have h2 := hf x hx
        rw [startRun_nextId] at h2
        simp only at h2
        omega

theorem runBody_pending_mono (b : Body) :
    ∀ (s : RState) (x : Nat), x ∈ s.pendingEffects → x ∈ (runBody b s).pendingEffects := by
  induction b with
  | nop => exact fun s x h => h
  | seq b1 b2 ih1 ih2 => exact fun s x h => ih2 _ x (ih1 s x h)
  | read p k =>
    intro s x h
    show x ∈ (getProp p k s).2.pendingEffects
    rw [(getProp_fields p k s).2.1]
    exact h
  | write p k v => exact fun s x h => setProp_pending_mono h
  | ite p k b1 b2 ih1 ih2 =>
    intro s x h
    simp only [runBody]
    split
    · exact ih1 _ x (by rw [(getProp_fields p k s).2.1]; exact h)
    · exact ih2 _ x (by rw [(getProp_fields p k s).2.1]; exact h)
  | mkEffect b ih =>
    intro s x h
    simp only [runBody, setSlot_pending]
    refine ih _ x ?_
    rw [startRun_pending]
    exact h

theorem executeEffect_nextId_mono (e : Nat) (s : RState) :
    s.nextId ≤ (executeEffect e s).nextId := by
  unfold executeEffect
  split
  · rename_i b hb
    rw [setSlot_nextId]
    have h := runBody_nextId_mono b (startRun e s)
    rwa [startRun_nextId] at h
  · rename_i b hb
    exact runBody_nextId_mono b (logRun e s)
  · exact Nat.le_refl _

theorem executeEffect_runLog (e : Nat) (s : RState) :
    ∃ l, (executeEffect e s).runLog = s.runLog ++ e :: l ∧ ∀ x ∈ l, s.nextId ≤ x := by
  unfold executeEffect
  split
  · rename_i b hb
    obtain ⟨l, h, hf⟩ := runBody_runLog b (startRun e s)
    refine ⟨l, ?_, ?_⟩
    · rw [setSlot_runLog, h, startRun_runLog]
      simp
    · intro x hx
      have h2 := hf x hx
      rwa [startRun_nextId] at h2
  · rename_i b hb
    obtain ⟨l, h, hf⟩ := runBody_runLog b (logRun e s)
    refine ⟨l, ?_, hf⟩
    rw [h]
    simp [logRun]
  · exact ⟨[], by simp [logRun], by simp⟩

theorem executeEffect_pending_mono (e : Nat) (s : RState) (x : Nat)
    (h : x ∈ s.pendingEffects) : x ∈ (executeEffect e s).pendingEffects := by
  unfold executeEffect
  split
  · rename_i b hb
    rw [setSlot_pending]
    refine runBody_pending_mono b _ x ?_
    rw [startRun_pending]
    exact h
  · rename_i b hb
    exact runBody_pending_mono b _ x h
  · exact h

theorem execFold_pending_mono (effs : List Nat) :
    ∀ (σ : RState) (x : Nat), x ∈ σ.pendingEffects →
      x ∈ (effs.foldl (fun σ2 a => executeEffect a σ2) σ).pendingEffects := by
  induction effs with
  | nil => exact fun σ x h => h
  | cons a rest ih => exact fun σ x h => ih _ x (executeEffect_pending_mono a σ x h)

theorem execFold_runLog (effs : List Nat) :
    ∀ s : RState,
      ∃ l, (effs.foldl (fun σ a => executeEffect a σ) s).runLog = s.runLog ++ l
        ∧ List.Sublist effs l
        ∧ ∀ x, x < s.nextId → l.count x = effs.count x := by
  induction effs with
  | nil => intro s; exact ⟨[], by simp, List.nil_sublist _, by simp⟩
  | cons a rest ih =>
    intro s
    obtain ⟨l0, h0, h0f⟩ := executeEffect_runLog a s
    obtain ⟨l1, h1, hsub, hcnt⟩ := ih (executeEffect a s)
    refine ⟨a :: (l0 ++ l1), ?_, ?_, ?_⟩
    · show (rest.foldl (fun σ a2 => executeEffect a2 σ) (executeEffect a s)).runLog = _
      rw [h1, h0]
      simp
    · exact List.Sublist.cons₂ a (hsub.trans (List.sublist_append_right l0 l1))
    · intro x hx
      have hxa : x < (executeEffect a s).nextId :=
        lt_of_lt_of_le hx (executeEffect_nextId_mono a s)
      have hl0 : l0.count x = 0 := by
        rw [List.count_eq_zero]
        intro hmem
        have := h0f x hmem
        omega
      simp [List.count_cons, List.count_append, hl0, hcnt x hxa]

theorem flush_runLog (s : RState) :
    ∃ l, (flushEffects s).runLog = s.runLog ++ l
      ∧ List.Sublist s.pendingEffects l
      ∧ ∀ x, x < s.nextId → l.count x = s.pendingEffects.count x := by
  obtain ⟨l, h, hs, hc⟩ :=
    execFold_runLog s.pendingEffects { s with isFlushPending := false, pendingEffects := [] }
  exact ⟨l, h, hs, hc⟩

theorem runDelta_of_append {s s2 : RState} {l : List Nat} (h : s2.runLog = s.runLog ++ l) :
    runDelta s s2 = l := by
  simp [runDelta, h]

theorem track_objs (t : Nat) (k : Key) (s : RState) : (track t k s).objs = s.objs := by
  unfold track
  split <;> rfl

theorem track_proxyCache (t : Nat) (k : Key) (s : RState) :
    (track t k s).proxyCache = s.proxyCache := by
  unfold track
  split <;> rfl

theorem createState_objs (o : Nat) (par : Option (Nat × Key)) (s : RState) :
    (createState o par s).2.objs = s.objs :=
  (createState_fields o par s).2.2.2.1

/-- Inversion of a wrapper read that produced an object value: it must have
    gone through the raw fetch, the track, and the recursive wrap. -/
theorem getProp_obj_inv {pp : Nat} {k : Key} {s s1 : RState} {q : Nat}
    (hg : getProp pp k s = (Val.obj q, s1)) :
    ∃ t o, alookup s.proxyTargetOf pp = some t ∧
      (isArrayObj s t && mutMethods.contains k) = false ∧
      rawGet s t k = Val.obj o ∧
      q = (createState o (some (t, k)) (track t k s)).1 ∧
      s1 = (createState o (some (t, k)) (track t k s)).2 := by
  unfold getProp at hg
  split at hg
  · have h1 := congrArg (fun r : Val × RState => r.1) hg
    simp at h1
  · rename_i t hpt
    split at hg
    · rename_i harr
      have h1 := congrArg (fun r : Val × RState => r.1) hg
      simp at h1
    · rename_i harr
      rcases hv : rawGet s t k with n | o | _ <;> rw [hv] at hg
      · have h1 := congrArg (fun r : Val × RState => r.1) hg
        simp at h1
      · have h1 := congrArg (fun r : Val × RState => r.1) hg
        have h2 := congrArg (fun r : Val × RState => r.2) hg
        simp at h1 h2
        exact ⟨t, o, hpt, by simpa using harr, hv, h1.symm, h2.symm⟩
      · have h1 := congrArg (fun r : Val × RState => r.1) hg
        simp at h1

/-- Computation of a wrapper read that fetches an object value. -/
theorem getProp_obj_val {pp t o : Nat} {k : Key} {s : RState}
    (hpt : alookup s.proxyTargetOf pp = some t)
    (harr : (isArrayObj s t && mutMethods.contains k) = false)
    (hraw : rawGet s t k = Val.obj o) :
    getProp pp k s = (Val.obj (createState o (some (t, k)) (track t k s)).1,
                      (createState o (some (t, k)) (track t k s)).2) := by
  unfold getProp
  rw [hpt]
  simp only [harr, Bool.false_eq_true, if_false, hraw]

/-- C3: wrapping is idempotent per target: a repeat `createState` call on the
    same target returns the reference-equal cached wrapper and changes no
    bookkeeping at all, and two separate reads of the same nested-object-valued
    property return reference-equal nested wrappers. -/
theorem c3_identity_stability :
    (∀ (s : RState) (o : Nat),
        createState o none (createState o none s).2 =
          ((createState o none s).1, (createState o none s).2))
  ∧ (∀ (s : RState) (pp q : Nat) (k : Key) (s1 : RState),
        (∀ pr ∈ s.proxyTargetOf, pr.1 < s.nextId) →
        getProp pp k s = (Val.obj q, s1) →
        (getProp pp k s1).1 = Val.obj q) := by
  constructor
  · intro s o
    have hc := createState_cache_self o none s
    set X := createState o none s with hX
    unfold createState
    rw [hc]
  · intro s pp q k s1 hb hg
    obtain ⟨t, o, hpt, harr, hraw, hq, hs1⟩ := getProp_obj_inv hg
    have hppn : pp < s.nextId := hb (pp, t) (alookup_mem hpt)
    have hobjs : s1.objs = s.objs := by
      rw [hs1, createState_objs, track_objs]
    have hpt1 : alookup s1.proxyTargetOf pp = some t := by
      rw [hs1]
      have hne : pp ≠ (track t k s).nextId := by
        rw [track_nextId]
        omega
      rw [createState_proxyTargetOf_pres o (some (t, k)) (track t k s) hne,
        track_proxyTargetOf]
      exact hpt
    have harr1 : (isArrayObj s1 t && mutMethods.contains k) = false := by
      have h2 : isArrayObj s1 t = isArrayObj s t := by
        unfold isArrayObj lookupObj
        rw [hobjs]
      rw [h2]
      exact harr
    have hraw1 : rawGet s1 t k = Val.obj o := by
      have h2 : rawGet s1 t k = rawGet s t k := by
        unfold rawGet lookupObj
        rw [hobjs]
      rw [h2]
      exact hraw
    have hcache1 : alookup s1.proxyCache o = some q := by
      rw [hs1, hq]
      exact createState_cache_self o (some (t, k)) (track t k s)
    rw [getProp_obj_val hpt1 harr1 hraw1]
    have hcache2 : alookup (track t k s1).proxyCache o = some q := by
      rw [track_proxyCache]
      exact hcache1
    show Val.obj (createState o (some (t, k)) (track t k s1)).1 = Val.obj q
    unfold createState
    rw [hcache2]

theorem setSlot_proxyTargetOf (a : Option Nat) (s : RState) :
    (setSlot a s).proxyTargetOf = s.proxyTargetOf := rfl

theorem setSlot_targetMap (a : Option Nat) (s : RState) :
    (setSlot a s).targetMap = s.targetMap := rfl

theorem setSlot_parentMap (a : Option Nat) (s : RState) :
    (setSlot a s).proxyParentMap = s.proxyParentMap := rfl

theorem trigger_activeEffect (t : Nat) (k : Key) (s : RState) :
    (trigger t k s).activeEffect = s.activeEffect :=
  (queueAll_fields (lookupF s.targetMap t k) s).2.2.2.2.1

theorem trigger_targetMap (t : Nat) (k : Key) (s : RState) :
    (trigger t k s).targetMap = s.targetMap :=
  (queueAll_fields (lookupF s.targetMap t k) s).2.1

theorem trigger_parentMap (t : Nat) (k : Key) (s : RState) :
    (trigger t k s).proxyParentMap = s.proxyParentMap :=
  (queueAll_fields (lookupF s.targetMap t k) s).2.2.2.2.2.2.2.1

theorem trigger_runLog (t : Nat) (k : Key) (s : RState) :
    (trigger t k s).runLog = s.runLog :=
  (queueAll_fields (lookupF s.targetMap t k) s).1

theorem trigger_nextId (t : Nat) (k : Key) (s : RState) :
    (trigger t k s).nextId = s.nextId :=
  (queueAll_fields (lookupF s.targetMap t k) s).2.2.2.1

theorem trigger_not_mem_pending {t : Nat} {k : Key} {s : RState} {e : Nat}
    (hp : e ∉ s.pendingEffects) (hf : e ∉ lookupF s.targetMap t k) :
    e ∉ (trigger t k s).pendingEffects := by
  intro hmem
  rcases mem_pending_trigger.mp hmem with h | h
  · exact hp h
  · exact hf h

theorem getProp_proxyTargetOf_pres (p : Nat) (k : Key) {s : RState} {q : Nat}
    (h : q < s.nextId) :
    alookup (getProp p k s).2.proxyTargetOf q = alookup s.proxyTargetOf q := by
  unfold getProp
  split
  · rfl
  · rename_i t heq
    split
    · rfl
    · rcases hv : rawGet s t k with n | o | _ <;> simp [hv, track_proxyTargetOf]
      have h2 : q ≠ (track t k s).nextId := by
        rw [track_nextId]
        omega
      rw [createState_proxyTargetOf_pres o (some (t, k)) (track t k s) h2,
        track_proxyTargetOf]

/-- C8: registering a scoped effect while no registration context is open is a
    usage error signalled immediately and synchronously by the call itself,
    which performs no bookkeeping before throwing. -/
theorem c8_createEffect_outside_context (b : Body) (s : RState)
    (h : s.activeComponentEffects = none) :
    createEffect b s = Except.error scopedErr := by
  unfold createEffect
  rw [h]

theorem c8_createEffect_outside_context_witness :
    createEffect Body.nop initState = Except.error scopedErr :=
  c8_createEffect_outside_context Body.nop initState rfl

/-- Concrete state for exercising deletion: `wrap({a: 1})` with a live effect
    that has read `.a` (so a subscriber is tracked on that very key). -/
def c9State : RState :=
  (effect (Body.read 1 "a")
    (createState 0 none (allocObj (ObjData.record [("a", Val.int 1)]) initState).2).2).2

/-- C9: property deletion through the wrapper is not intercepted (the handler
    has only `get` and `set` traps): it removes the field from the underlying
    target but records no edge, triggers no subscriber, and leaves the
    dependency graph, the pending batch and the run log unchanged. -/
theorem c9_delete_unintercepted (s : RState) (p t : Nat) (k : Key)
    (f : List (Key × Val))
    (hpt : alookup s.proxyTargetOf p = some t)
    (hobj : lookupObj s t = some (ObjData.record f)) :
    (deleteProp p k s).targetMap = s.targetMap ∧
    (deleteProp p k s).effectDeps = s.effectDeps ∧
    (deleteProp p k s).pendingEffects = s.pendingEffects ∧
    (deleteProp p k s).isFlushPending = s.isFlushPending ∧
    (deleteProp p k s).runLog = s.runLog ∧
    rawGet (deleteProp p k s) t k = Val.undef := by
  unfold deleteProp
  rw [hpt]
  refine ⟨rfl, rfl, rfl, rfl, rfl, ?_⟩
  have hobj2 : alookup s.objs t = some (ObjData.record f) := hobj
  have h2 : (rawDelete s t k).objs = aset s.objs t (ObjData.record (aerase f k)) := by
    show updObj s.objs t _ = _
    unfold updObj
    rw [hobj2]
  unfold rawGet lookupObj
  rw [h2, alookup_aset_self]
  simp [alookup_aerase_self]

theorem c9_delete_unintercepted_witness :
    (deleteProp 1 "a" c9State).targetMap = c9State.targetMap ∧
    (deleteProp 1 "a" c9State).effectDeps = c9State.effectDeps ∧
    (deleteProp 1 "a" c9State).pendingEffects = c9State.pendingEffects ∧
    (deleteProp 1 "a" c9State).isFlushPending = c9State.isFlushPending ∧
    (deleteProp 1 "a" c9State).runLog = c9State.runLog ∧
    rawGet (deleteProp 1 "a" c9State) 0 "a" = Val.undef :=
  c9_delete_unintercepted c9State 1 0 "a" [("a", Val.int 1)] (by decide) (by decide)

instance (s : RState) : Decidable (fwdInRev s) := by
  unfold fwdInRev
  infer_instance

/-- Concrete state for dependency pruning: `wrap({flag: 1, a: 1, b: 2})` with an
    effect that reads `.a` when `.flag` is truthy and `.b` otherwise. -/
def c4Start : RState :=
  (effect (Body.ite 1 "flag" (Body.read 1 "a") (Body.read 1 "b"))
    (createState 0 none
      (allocObj (ObjData.record [("flag", Val.int 1), ("a", Val.int 1), ("b", Val.int 2)])
        initState).2).2).2

/-- The state after flipping the flag and letting the scheduled flush re-run
    the effect (whose cleanup runs before the re-evaluation). -/
def c4After : RState := flushEffects (setProp 1 "flag" (Val.int 0) c4Start)

/-- C4: given the two-index consistency invariant, immediately after
    `cleanup` (the spec's `clearEdges`) no forward-index set contains the
    subscriber; a subscriber absent from a forward set is not enqueued by a
    trigger of that (target, key); and in the concrete flipped-flag run the
    re-evaluated effect has dropped its stale `.a` edge, kept `.b`, and a
    later trigger of `.a` enqueues nothing. -/
theorem c4_clear_edges (s : RState) (e : Nat) (hm : fwdInRev s) :
    (∀ (t : Nat) (k : Key), e ∉ lookupF (cleanup e s).targetMap t k)
  ∧ (∀ (s2 : RState) (t : Nat) (k : Key),
      e ∉ lookupF s2.targetMap t k → e ∉ s2.pendingEffects →
      e ∉ (trigger t k s2).pendingEffects)
  ∧ (lookupF c4After.targetMap 0 "a" = []
      ∧ lookupF c4After.targetMap 0 "b" = [2]
      ∧ (trigger 0 "a" c4After).pendingEffects = c4After.pendingEffects) := by
  refine ⟨fun t k => cleanup_clears s e hm t k, ?_, by decide⟩
  intro s2 t k hf hp
  exact trigger_not_mem_pending hp hf

theorem c4_clear_edges_witness :
    2 ∉ lookupF (cleanup 2 c4Start).targetMap 0 "a" ∧
    2 ∉ lookupF (cleanup 2 c4Start).targetMap 0 "flag" :=
  ⟨(c4_clear_edges c4Start 2 (by decide)).1 0 "a",
   (c4_clear_edges c4Start 2 (by decide)).1 0 "flag"⟩

/-! Active-subscriber-slot lemmas for the three kinds of evaluation. -/

theorem runBody_slot_none (b : Body) :
    ∀ s : RState, s.activeEffect = none → (runBody b s).activeEffect = none := by
  induction b with
  | nop => exact fun s h => h
  | seq b1 b2 ih1 ih2 => exact fun s h => ih2 _ (ih1 s h)
  | read p k =>
    intro s h
    show (getProp p k s).2.activeEffect = none
    rw [(getProp_fields p k s).2.2.2.2.2.1]
    exact h
  | write p k v =>
    intro s h
    show (setProp p k v s).activeEffect = none
    rw [(setProp_fields p k v s).2.2.2.2.1]
    exact h
  | ite p k b1 b2 ih1 ih2 =>
    intro s h
    simp only [runBody]
    split
    · exact ih1 _ (by rw [(getProp_fields p k s).2.2.2.2.2.1]; exact h)
    · exact ih2 _ (by rw [(getProp_fields p k s).2.2.2.2.2.1]; exact h)
  | mkEffect b ih =>
    intro s h
    simp only [runBody]
    exact setSlot_activeEffect none _

theorem mountScopedEffect_slot (b : Body) (s : RState) :
    (mountScopedEffect b s).2.activeEffect = s.activeEffect := rfl

theorem arrayPush_slot (p : Nat) (v : Val) (s : RState) :
    (arrayPush p v s).activeEffect = s.activeEffect := by
  unfold arrayPush arrayMethodRun
  dsimp only
  rcases hp : alookup (trigger p lengthKey (trigger p pushKey
      (setSlot s.activeEffect (pushNative p v (setSlot none s))))).proxyParentMap p
    with _ | pk <;>
    simp [hp, trigger_activeEffect, setSlot_activeEffect]

theorem executeEffect_slot_of_none (e : Nat) (s : RState) (h : s.activeEffect = none) :
    (executeEffect e s).activeEffect = s.activeEffect := by
  unfold executeEffect
  split
  · rw [setSlot_activeEffect, h]
  · rename_i b hb
    rw [runBody_slot_none b (logRun e s) h, h]
  · rfl

/-- Base state for the slot counterexample: `wrap({a: 1})`. -/
def c7cexBase : RState :=
  (createState 0 none (allocObj (ObjData.record [("a", Val.int 1)]) initState).2).2

/-- The state reached inside the outer effect's first evaluation, just before
    the nested `effect(() => {})` creation runs: the outer `execute` (id 2) is
    registered, logged, and sitting in the active-subscriber slot. -/
def c7cexMid : RState :=
  { c7cexBase with
      nextId := 3,
      bodies := [(2, Runner.free (Body.seq (Body.mkEffect Body.nop) (Body.read 1 "a")))],
      runLog := [2],
      activeEffect := some 2 }

/-- C7 counterexample: a free-standing effect evaluation does not restore the
    active-subscriber slot.  At the reachable mid-run state the slot holds the
    outer subscriber, yet after the nested effect creation completes the slot
    is `null`, not its previous value — and consequently, running
    `effect(() => { effect(() => {}); read(state.a) })` end to end leaves the
    outer effect with no recorded dependency on `.a` at all. -/
theorem c7_slot_not_restored_counterexample :
    c7cexMid.activeEffect = some 2
  ∧ (runBody (Body.mkEffect Body.nop) c7cexMid).activeEffect = none
  ∧ (runBody (Body.mkEffect Body.nop) c7cexMid).activeEffect ≠ c7cexMid.activeEffect
  ∧ lookupF (effect (Body.seq (Body.mkEffect Body.nop) (Body.read 1 "a")) c7cexBase).2.targetMap
      0 "a" = [] := by
  decide

/-- C7 (amended): the active-subscriber slot is saved and restored around a
    scoped effect's registration run and around an instrumented sequence
    operation; a free-standing effect's evaluation instead always leaves the
    slot `null` afterwards, which coincides with restoration exactly when the
    slot was empty before the evaluation began (the only situation produced by
    top-level creation and by scheduled flushes). -/
theorem c7_slot_saved_restored (b : Body) (p e : Nat) (v : Val) (s : RState) :
    (mountScopedEffect b s).2.activeEffect = s.activeEffect
  ∧ (arrayPush p v s).activeEffect = s.activeEffect
  ∧ (s.activeEffect = none → (executeEffect e s).activeEffect = s.activeEffect) :=
  ⟨mountScopedEffect_slot b s, arrayPush_slot p v s,
   fun h => executeEffect_slot_of_none e s h⟩

theorem c7_slot_saved_restored_witness :
    (mountScopedEffect Body.nop initState).2.activeEffect = initState.activeEffect
  ∧ (arrayPush 0 (Val.int 0) initState).activeEffect = initState.activeEffect
  ∧ (executeEffect 0 initState).activeEffect = initState.activeEffect :=
  ⟨(c7_slot_saved_restored Body.nop 0 0 (Val.int 0) initState).1,
   (c7_slot_saved_restored Body.nop 0 0 (Val.int 0) initState).2.1,
   (c7_slot_saved_restored Body.nop 0 0 (Val.int 0) initState).2.2 (by decide)⟩

/-- Concrete state for sequence reactivity: `wrap([1, 2, 3])` with a live
    effect that has read the wrapped sequence's `length` (so subscriber 2 is
    tracked on the raw target's `length` key, target id 0, proxy id 1). -/
def c6State : RState :=
  (effect (Body.read 1 "length")
    (createState 0 none
      (allocObj (ObjData.array [Val.int 1, Val.int 2, Val.int 3]) initState).2).2).2

/-- C6: the instrumented `push` completes the mutation (the array length
    becomes 4) but enqueues nothing: its post-operation `trigger(this, "push")`
    and `trigger(this, "length")` calls pass the proxy (`this`), while `track`
    records every edge on the raw target, so the subscriber tracked on the
    target's `length` is never enqueued — the pending batch stays empty, no
    flush is scheduled, and the next scheduling turn re-runs nothing. -/
theorem c6_push_misses_length_subscriber :
    lookupF c6State.targetMap 0 "length" = [2]
  ∧ c6State.pendingEffects = []
  ∧ (arrayPush 1 (Val.int 4) c6State).pendingEffects = []
  ∧ (arrayPush 1 (Val.int 4) c6State).isFlushPending = false
  ∧ rawGet (arrayPush 1 (Val.int 4) c6State) 0 "length" = Val.int 4
  ∧ runDelta (arrayPush 1 (Val.int 4) c6State)
      (flushEffects (arrayPush 1 (Val.int 4) c6State)) = [] := by
  decide

/-- C1: with a subscriber tracked on (target, key) of a wrapped object and not
    already pending, a write through the wrapper of a different value schedules
    a flush and the next scheduling turn re-runs that subscriber exactly once,
    while a write of the identical value causes zero re-runs. -/
theorem c1_tracking_correctness (s : RState) (p t e : Nat) (k : Key) (v : Val)
    (hpt : alookup s.proxyTargetOf p = some t)
    (hsub : e ∈ lookupF s.targetMap t k)
    (hnd : s.pendingEffects.Nodup)
    (hfb : ∀ pr ∈ s.targetMap, ∀ x ∈ pr.2, x < s.nextId)
    (hpend : e ∉ s.pendingEffects) :
    (rawGet s t k ≠ v →
        (runDelta (setProp p k v s) (flushEffects (setProp p k v s))).count e = 1
      ∧ (setProp p k v s).isFlushPending = true)
  ∧ (rawGet s t k = v →
        (runDelta (setProp p k v s) (flushEffects (setProp p k v s))).count e = 0) := by
  have helt : e < s.nextId := by
    obtain ⟨pr, hpr, hpr1, hpre⟩ := mem_lookupF_mem _ hsub
    exact hfb pr hpr e hpre
  constructor
  · intro hne
    rw [setProp_of_ne hpt hne]
    have hmem : e ∈ (trigger t k (rawSet s t k v)).pendingEffects :=
      mem_pending_trigger.mpr (Or.inr hsub)
    have hnd2 : (trigger t k (rawSet s t k v)).pendingEffects.Nodup :=
      trigger_pending_nodup hnd
    obtain ⟨l, hl, hsl, hc⟩ := flush_runLog (trigger t k (rawSet s t k v))
    have helt2 : e < (trigger t k (rawSet s t k v)).nextId := by
      rw [trigger_nextId]
      exact helt
    constructor
    · rw [runDelta_of_append hl, hc e helt2]
      exact List.count_eq_one_of_mem hnd2 hmem
    · exact queueAll_flag (List.ne_nil_of_mem hsub)
  · intro heq
    rw [setProp_of_eq hpt heq]
    obtain ⟨l, hl, hsl, hc⟩ := flush_runLog (rawSet s t k v)
    rw [runDelta_of_append hl, hc e helt]
    exact List.count_eq_zero.mpr hpend

/-- Concrete state for tracking correctness: `wrap({a: 1})` with a live effect
    that has read `.a` (subscriber 2, target 0, proxy 1). -/
def c1State : RState :=
  (effect (Body.read 1 "a")
    (createState 0 none (allocObj (ObjData.record [("a", Val.int 1)]) initState).2).2).2

theorem c1_tracking_correctness_witness :
    ((runDelta (setProp 1 "a" (Val.int 5) c1State)
        (flushEffects (setProp 1 "a" (Val.int 5) c1State))).count 2 = 1
      ∧ (setProp 1 "a" (Val.int 5) c1State).isFlushPending = true)
  ∧ (runDelta (setProp 1 "a" (Val.int 1) c1State)
      (flushEffects (setProp 1 "a" (Val.int 1) c1State))).count 2 = 0 :=
  ⟨(c1_tracking_correctness c1State 1 0 2 "a" (Val.int 5) (by decide) (by decide)
      (by decide) (by decide) (by decide)).1 (by decide),
   (c1_tracking_correctness c1State 1 0 2 "a" (Val.int 1) (by decide) (by decide)
      (by decide) (by decide) (by decide)).2 (by decide)⟩

/-- One synchronous stretch of writes through wrappers, applied in order. -/
def applyWrites (ws : List (Nat × Key × Val)) (s : RState) : RState :=
  ws.foldl (fun σ w => setProp w.1 w.2.1 w.2.2 σ) s

theorem applyWrites_inv (ws : List (Nat × Key × Val)) :
    ∀ s : RState, s.pendingEffects.Nodup →
      (∀ pr ∈ s.targetMap, ∀ x ∈ pr.2, x < s.nextId) →
      (∀ x ∈ s.pendingEffects, x < s.nextId) →
      (applyWrites ws s).pendingEffects.Nodup
      ∧ (∀ x ∈ (applyWrites ws s).pendingEffects, x < s.nextId)
      ∧ (applyWrites ws s).runLog = s.runLog
      ∧ (applyWrites ws s).nextId = s.nextId := by
  induction ws with
  | nil => exact fun s hnd hfb hpb => ⟨hnd, hpb, rfl, rfl⟩
  | cons w rest ih =>
    intro s hnd hfb hpb
    have hstep := setProp_fields w.1 w.2.1 w.2.2 s
    have hnd1 : (setProp w.1 w.2.1 w.2.2 s).pendingEffects.Nodup := setProp_pending_nodup hnd
    have hfb1 : ∀ pr ∈ (setProp w.1 w.2.1 w.2.2 s).targetMap, ∀ x ∈ pr.2,
        x < (setProp w.1 w.2.1 w.2.2 s).nextId := by
      rw [hstep.2.2.1, hstep.2.1]
      exact hfb
    have hpb1 : ∀ x ∈ (setProp w.1 w.2.1 w.2.2 s).pendingEffects,
        x < (setProp w.1 w.2.1 w.2.2 s).nextId := by
      rw [hstep.2.1]
      intro x hx
      rcases mem_pending_setProp hx with h | ⟨t, hpt2, h⟩
      · exact hpb x h
      · obtain ⟨pr, hpr, hpr1, hpre⟩ := mem_lookupF_mem _ h
        exact hfb pr hpr x hpre
    obtain ⟨a, b, c, d⟩ := ih (setProp w.1 w.2.1 w.2.2 s) hnd1 hfb1 hpb1
    refine ⟨a, ?_, ?_, ?_⟩
    · rw [hstep.2.1] at b
      exact b
    · show (applyWrites rest (setProp w.1 w.2.1 w.2.2 s)).runLog = s.runLog
      rw [c, hstep.1]
    · show (applyWrites rest (setProp w.1 w.2.1 w.2.2 s)).nextId = s.nextId
      rw [d, hstep.2.1]

/-- C2: a sequence of synchronous writes never runs any subscriber (the run
    log is untouched, and `trigger` alone never runs anything either), keeps
    the pending batch set duplicate-free no matter how many edges enqueued a
    subscriber, and so the flush of the resulting batch runs each affected
    subscriber at most once. -/
theorem c2_batching (ws : List (Nat × Key × Val)) (s : RState)
    (hnd : s.pendingEffects.Nodup)
    (hfb : ∀ pr ∈ s.targetMap, ∀ x ∈ pr.2, x < s.nextId)
    (hpb : ∀ x ∈ s.pendingEffects, x < s.nextId) :
    (applyWrites ws s).pendingEffects.Nodup
  ∧ (applyWrites ws s).runLog = s.runLog
  ∧ (∀ e, e < s.nextId →
      (runDelta (applyWrites ws s) (flushEffects (applyWrites ws s))).count e ≤ 1)
  ∧ (∀ (s2 : RState) (t : Nat) (k : Key), (trigger t k s2).runLog = s2.runLog) := by
  obtain ⟨hnd2, hpb2, hlog, hnext⟩ := applyWrites_inv ws s hnd hfb hpb
  refine ⟨hnd2, hlog, ?_, fun s2 t k => trigger_runLog t k s2⟩
  intro e he
  obtain ⟨l, hl, hsl, hc⟩ := flush_runLog (applyWrites ws s)
  rw [runDelta_of_append hl, hc e (by rw [hnext]; exact he)]
  exact List.nodup_iff_count_le_one.mp hnd2 e

/-- Concrete state for batching: `wrap({a: 1, b: 2, c: 3})` with a live effect
    that has read all three properties. -/
def c2State : RState :=
  (effect (Body.seq (Body.read 1 "a") (Body.seq (Body.read 1 "b") (Body.read 1 "c")))
    (createState 0 none
      (allocObj (ObjData.record [("a", Val.int 1), ("b", Val.int 2), ("c", Val.int 3)])
        initState).2).2).2

theorem c2_batching_witness :
    (applyWrites [(1, "a", Val.int 9), (1, "b", Val.int 8), (1, "c", Val.int 7)]
        c2State).pendingEffects.Nodup
  ∧ (applyWrites [(1, "a", Val.int 9), (1, "b", Val.int 8), (1, "c", Val.int 7)]
        c2State).runLog = c2State.runLog
  ∧ (runDelta (applyWrites [(1, "a", Val.int 9), (1, "b", Val.int 8), (1, "c", Val.int 7)] c2State)
      (flushEffects
        (applyWrites [(1, "a", Val.int 9), (1, "b", Val.int 8), (1, "c", Val.int 7)] c2State))).count
      2 ≤ 1 :=
  ⟨(c2_batching [(1, "a", Val.int 9), (1, "b", Val.int 8), (1, "c", Val.int 7)] c2State
      (by decide) (by decide) (by decide)).1,
   (c2_batching [(1, "a", Val.int 9), (1, "b", Val.int 8), (1, "c", Val.int 7)] c2State
      (by decide) (by decide) (by decide)).2.1,
   (c2_batching [(1, "a", Val.int 9), (1, "b", Val.int 8), (1, "c", Val.int 7)] c2State
      (by decide) (by decide) (by decide)).2.2.1 2 (by decide)⟩

/-- C5: `flushEffects` swaps the pending set out before running anything: each
    subscriber of the swapped batch runs exactly once, in the order it was
    first enqueued (the batch is a sublist of the evaluation log in order);
    a subscriber not in the swapped batch runs zero times in this flush even
    if a trigger during the flush enqueues it; and nothing enqueued while the
    runs execute is ever removed again, so re-entrant triggers land in the new
    batch rather than being lost. -/
theorem c5_flush_swaps_batch (s : RState)
    (hnd : s.pendingEffects.Nodup)
    (hpb : ∀ x ∈ s.pendingEffects, x < s.nextId) :
    List.Sublist s.pendingEffects (runDelta s (flushEffects s))
  ∧ (∀ e ∈ s.pendingEffects, (runDelta s (flushEffects s)).count e = 1)
  ∧ (∀ e, e < s.nextId → e ∉ s.pendingEffects → (runDelta s (flushEffects s)).count e = 0)
  ∧ (∀ (s2 : RState) (effs : List Nat) (x : Nat), x ∈ s2.pendingEffects →
      x ∈ (effs.foldl (fun σ a => executeEffect a σ) s2).pendingEffects) := by
  obtain ⟨l, hl, hsl, hc⟩ := flush_runLog s
  rw [runDelta_of_append hl]
  refine ⟨hsl, ?_, ?_, fun s2 effs x hx => execFold_pending_mono effs s2 x hx⟩
  · intro e he
    rw [hc e (hpb e he)]
    exact List.count_eq_one_of_mem hnd he
  · intro e he hne
    rw [hc e he]
    exact List.count_eq_zero.mpr hne

/-- Concrete state for the flush contract: `wrap({a: 1, b: 2})`, one effect
    reading `.a` (subscriber 2), one reading `.b` (subscriber 3), then one
    synchronous stretch of writes to both — leaving the batch [2, 3] pending. -/
def c5State : RState :=
  applyWrites [(1, "a", Val.int 5), (1, "b", Val.int 6)]
    (effect (Body.read 1 "b")
      (effect (Body.read 1 "a")
        (createState 0 none
          (allocObj (ObjData.record [("a", Val.int 1), ("b", Val.int 2)]) initState).2).2).2).2

theorem c5_flush_swaps_batch_witness :
    List.Sublist c5State.pendingEffects (runDelta c5State (flushEffects c5State))
  ∧ (runDelta c5State (flushEffects c5State)).count 2 = 1
  ∧ (runDelta c5State (flushEffects c5State)).count 3 = 1 :=
  ⟨(c5_flush_swaps_batch c5State (by decide) (by decide)).1,
   (c5_flush_swaps_batch c5State (by decide) (by decide)).2.1 2 (by decide),
   (c5_flush_swaps_batch c5State (by decide) (by decide)).2.1 3 (by decide)⟩

theorem arrayMethodRun_not_pending (p : Nat) (method : Key) (nativeOp : RState → RState)
    (s : RState) (e : Nat)
    (h1 : e ∉ (nativeOp (setSlot none s)).pendingEffects)
    (h2 : ∀ k2, e ∉ lookupF (nativeOp (setSlot none s)).targetMap p k2)
    (h4 : ∀ q k2, alookup (nativeOp (setSlot none s)).proxyParentMap p = some (q, k2) →
        e ∉ lookupF (nativeOp (setSlot none s)).targetMap q k2) :
    e ∉ (arrayMethodRun p method nativeOp s).pendingEffects := by
  unfold arrayMethodRun
  dsimp only
  set s2 := nativeOp (setSlot none s) with hs2
  set s3 := setSlot s.activeEffect s2 with hs3
  have h3tm : s3.targetMap = s2.targetMap := rfl
  have h4p : e ∉ (trigger p method s3).pendingEffects :=
    trigger_not_mem_pending h1 (h2 method)
  have h4tm : (trigger p method s3).targetMap = s2.targetMap := trigger_targetMap p method s3
  have h5p : e ∉ (trigger p lengthKey (trigger p method s3)).pendingEffects := by
    refine trigger_not_mem_pending h4p ?_
    rw [h4tm]
    exact h2 lengthKey
  have h5par : (trigger p lengthKey (trigger p method s3)).proxyParentMap =
      s2.proxyParentMap := by
    rw [trigger_parentMap, trigger_parentMap]
    exact setSlot_parentMap _ _
  rcases hpp : alookup (trigger p lengthKey (trigger p method s3)).proxyParentMap p
    with _ | pk
  · exact h5p
  · refine trigger_not_mem_pending h5p ?_
    have hp2 : alookup s2.proxyParentMap p = some pk := by
      rw [← h5par]
      exact hpp
    have h6 := h4 pk.1 pk.2 (by rw [Prod.mk.eta]; exact hp2)
    rw [trigger_targetMap, h4tm]
    exact h6

theorem pushNative_facts {pa t : Nat} (v : Val) {s : RState} (e : Nat)
    (hpt : alookup s.proxyTargetOf pa = some t)
    (hpan : pa < s.nextId)
    (hpend : e ∉ s.pendingEffects)
    (hftF : ∀ k2, e ∉ lookupF s.targetMap t k2)
    (hpar : alookup s.proxyParentMap pa = none) :
    (pushNative pa v (setSlot none s)).targetMap = s.targetMap
  ∧ e ∉ (pushNative pa v (setSlot none s)).pendingEffects
  ∧ alookup (pushNative pa v (setSlot none s)).proxyParentMap pa = none := by
  unfold pushNative
  rw [show alookup (setSlot none s).proxyTargetOf pa = some t from hpt]
  dsimp only
  set σ := setSlot none s with hσ
  set r := getProp pa lengthKey σ with hr
  have hrtm : r.2.targetMap = s.targetMap := getProp_targetMap_none pa lengthKey rfl
  have hrpend : r.2.pendingEffects = s.pendingEffects := (getProp_fields pa lengthKey σ).2.1
  have hrpto : alookup r.2.proxyTargetOf pa = some t := by
    rw [hr, getProp_proxyTargetOf_pres pa lengthKey (show pa < σ.nextId from hpan)]
    exact hpt
  have hrpar : alookup r.2.proxyParentMap pa = none := by
    rw [hr, getProp_parent_pres pa lengthKey (show pa < σ.nextId from hpan)]
    exact hpar
  set len := arrayLen r.2 t with hlen
  set sB := setProp pa (natKey len) v r.2 with hsB
  have hBf := setProp_fields pa (natKey len) v r.2
  have hBtm : sB.targetMap = s.targetMap := hBf.2.2.1.trans hrtm
  have hBpend : e ∉ sB.pendingEffects := by
    intro hmem
    rcases mem_pending_setProp hmem with h | ⟨t2, hpt2, h⟩
    · rw [hrpend] at h
      exact hpend h
    · rw [hrpto] at hpt2
      cases hpt2
      rw [hrtm] at h
      exact hftF _ h
  have hBpto : alookup sB.proxyTargetOf pa = some t := by
    rw [hsB, hBf.2.2.2.2.2.2.2.1]
    exact hrpto
  have hBpar : alookup sB.proxyParentMap pa = none := by
    rw [hsB, hBf.2.2.2.2.2.2.2.2.1]
    exact hrpar
  have hCf := setProp_fields pa lengthKey (Val.int (len + 1)) sB
  refine ⟨hCf.2.2.1.trans hBtm, ?_, ?_⟩
  · intro hmem
    rcases mem_pending_setProp hmem with h | ⟨t2, hpt2, h⟩
    · exact hBpend h
    · rw [hBpto] at hpt2
      cases hpt2
      rw [hBtm] at h
      exact hftF _ h
  · rw [hCf.2.2.2.2.2.2.2.2.1]
    exact hBpar

/-- C10: parent linkage is recorded only when a wrapper is first created: a
    later `createState` call on a cached target — even one supplying a parent
    and key — returns the cached wrapper with the state entirely unchanged; and
    an in-place `push` on a wrapped sequence with no parent linkage never
    enqueues a subscriber that is tracked neither on the sequence's own target
    nor on its proxy (in particular, one watching only the containing
    property). -/
theorem c10_parent_linkage (s : RState) (o p pa t e : Nat) (par : Option (Nat × Key))
    (v : Val)
    (hcache : alookup s.proxyCache o = some p)
    (hpt : alookup s.proxyTargetOf pa = some t)
    (hpar : alookup s.proxyParentMap pa = none)
    (hpw : ∀ pr ∈ s.proxyTargetOf, pr.1 < s.nextId)
    (hpend : e ∉ s.pendingEffects)
    (hft : ∀ pr ∈ s.targetMap, pr.1.1 = t → e ∉ pr.2)
    (hfp : ∀ pr ∈ s.targetMap, pr.1.1 = pa → e ∉ pr.2) :
    createState o par s = (p, s) ∧ e ∉ (arrayPush pa v s).pendingEffects := by
  have hftF : ∀ k2, e ∉ lookupF s.targetMap t k2 := by
    intro k2 hmem
    obtain ⟨pr, hpr, hpr1, hpre⟩ := mem_lookupF_mem _ hmem
    exact hft pr hpr (by rw [hpr1]) hpre
  have hfpF : ∀ k2, e ∉ lookupF s.targetMap pa k2 := by
    intro k2 hmem
    obtain ⟨pr, hpr, hpr1, hpre⟩ := mem_lookupF_mem _ hmem
    exact hfp pr hpr (by rw [hpr1]) hpre
  have hpan : pa < s.nextId := hpw (pa, t) (alookup_mem hpt)
  obtain ⟨htm, hpend2, hpar2⟩ := pushNative_facts v e hpt hpan hpend hftF hpar
  constructor
  · unfold createState
    rw [hcache]
  · refine arrayMethodRun_not_pending pa pushKey (pushNative pa v) s e hpend2 ?_ ?_
    · intro k2
      rw [htm]
      exact hfpF k2
    · intro q k2 hq
      rw [hpar2] at hq
      cases hq

/-- Concrete state for parent-linkage timing: `wrap([1, 2])` as a root
    (target 0, proxy 1), then `wrap({items: [1, 2]})` around an object holding
    that same array (target 2, proxy 3), with an effect (subscriber 4) that
    read `.items` — a read whose nested wrap was a cache hit, so no parent
    linkage was recorded for the array's proxy. -/
def c10State : RState :=
  (effect (Body.read 3 "items")
    (createState 2 none
      (allocObj (ObjData.record [("items", Val.obj 0)])
        (createState 0 none
          (allocObj (ObjData.array [Val.int 1, Val.int 2]) initState).2).2).2).2).2

theorem c10_parent_linkage_witness :
    createState 0 (some (2, "items")) c10State = (1, c10State)
  ∧ 4 ∉ (arrayPush 1 (Val.int 9) c10State).pendingEffects :=
  ⟨(c10_parent_linkage c10State 0 1 1 0 4 (some (2, "items")) (Val.int 9) (by decide)
      (by decide) (by decide) (by decide) (by decide) (by decide) (by decide)).1,
   (c10_parent_linkage c10State 0 1 1 0 4 (some (2, "items")) (Val.int 9) (by decide)
      (by decide) (by decide) (by decide) (by decide) (by decide) (by decide)).2⟩

/-- Concrete state for identity stability: `{x: 7}` (target 0) nested as the
    `child` property of a wrapped `{child: {x: 7}}` (target 1, proxy 2). -/
def c3State : RState :=
  (createState 1 none
    (allocObj (ObjData.record [("child", Val.obj 0)])
      (allocObj (ObjData.record [("x", Val.int 7)]) initState).2).2).2

theorem c3_identity_stability_witness :
    createState 0 none (createState 0 none c3State).2 =
      ((createState 0 none c3State).1, (createState 0 none c3State).2)
  ∧ (getProp 2 "child" (getProp 2 "child" c3State).2).1 = Val.obj 3 :=
  ⟨c3_identity_stability.1 c3State 0,
   c3_identity_stability.2 c3State 2 3 "child" (getProp 2 "child" c3State).2 (by decide)
     (by decide)⟩
